import Mathlib

set_option maxRecDepth 16384

/-!
Shallow embedding of the job-control core of the `ash` shell
(`src/unnamed/part_000`, the ~490-line reference program; `src/826.c` is an
earlier snapshot of the same file).

The embedding keeps the C names: `Status`, `job`, `addjob`, `setjobstat`,
`parse_int`, `parse_pid`, `parseline`, `eval`, `run_fg`, `reap_child`.
C strings are `List Char`, `pid_t`/`int` are `Int`, and the fixed job array
`jobs[MAXJOBS]` together with the globals `next_jid` and `fg_pid` form
`ShellState`.  Operating-system inputs (the statuses reported by `waitpid`)
are passed in explicitly as `WaitResult` values.
-/

namespace Ash

/-- The `Status` enum of the C source (the zero value is `UNINIT`, which is
what the static array `jobs[MAXJOBS]` starts out as). -/
inductive Status where
  | UNINIT
  | RUNNING
  | STOPPED
  | TERMINATED
deriving DecidableEq, Repr

/-- The `job` struct: `{ pid_t pid; int jid; Status st; }`. -/
structure Job where
  pid : Int
  jid : Int
  st : Status
deriving DecidableEq, Repr

/-- A zero-initialized `job`, the content of every slot of the static array
`jobs[MAXJOBS]` before any registration. -/
def zeroJob : Job := ⟨0, 0, Status.UNINIT⟩

instance : Inhabited Job := ⟨zeroJob⟩

/-- `#define MAXJOBS 100`. -/
def MAXJOBS : Nat := 100

/-- The mutable globals of the program: `next_jid`, `fg_pid` and the job
array (kept as a list of length `MAXJOBS`). -/
structure ShellState where
  next_jid : Int
  fg_pid : Int
  jobs : List Job
deriving DecidableEq, Repr

/-- The state at program start: `next_jid = 0`, `fg_pid = 0`, and the
zero-initialized static array. -/
def initState : ShellState := ⟨0, 0, List.replicate MAXJOBS zeroJob⟩

/-- A slot that `addjob` treats as reusable:
`j->st == UNINIT || j->st == TERMINATED`. -/
def isFree (j : Job) : Prop := j.st = Status.UNINIT ∨ j.st = Status.TERMINATED

instance (j : Job) : Decidable (isFree j) := by unfold isFree; infer_instance

/-- Index of the first slot whose `pid` equals `p`, mirroring the scan
`for (i...) if (j->pid == pid)` with its early return. -/
def findPid (l : List Job) (p : Int) : Option Nat :=
  match l with
  | [] => none
  | j :: rest => if j.pid = p then some 0 else (findPid rest p).map (· + 1)

/-- Index of the last reusable slot.  The C loop in `addjob` overwrites the
local `free_job` on every `UNINIT`/`TERMINATED` slot it passes, so when the
scan finishes without a pid match, `free_job` points at the *last* free
slot; `none` means the local was never written. -/
def lastFree : List Job → Option Nat
  | [] => none
  | j :: rest =>
    match lastFree rest with
    | some k => some (k + 1)
    | none => if isFree j then some 0 else none

/-- `addjob` (part_000 lines 53-80).  The single C loop checks the pid match
first and returns early on it, otherwise records the slot in `free_job` when
it is reusable; on a full scan with no match the final value of `free_job`
is the last reusable slot.  The local `free_job` is never initialized, so
when the scan neither matches the pid nor finds a reusable slot, the
`if (free_job != NULL)` test reads an indeterminate value — undefined
behavior, modelled here as `none`. -/
def addjob (s : ShellState) (pid : Int) (st : Status) : Option (ShellState × Int) :=
  match findPid s.jobs pid with
  | some k =>
    let j := s.jobs.getD k default
    some ({ s with jobs := s.jobs.set k { j with st := st } }, j.jid)
  | none =>
    match lastFree s.jobs with
    | some m =>
      let jid := s.next_jid + 1
      some ({ next_jid := jid, fg_pid := s.fg_pid, jobs := s.jobs.set m ⟨pid, jid, st⟩ }, jid)
    | none => none

/-- `setjobstat` (part_000 lines 83-94): update the status of the first slot
whose pid matches and return its jid, or return `-1` leaving the table
untouched. -/
def setjobstat (s : ShellState) (pid : Int) (st : Status) : ShellState × Int :=
  match findPid s.jobs pid with
  | some k =>
    let j := s.jobs.getD k default
    ({ s with jobs := s.jobs.set k { j with st := st } }, j.jid)
  | none => (s, -1)

/-- Value of a run of decimal digits. -/
def digitsToNat : List Char → Nat → Nat
  | [], acc => acc
  | c :: rest, acc => digitsToNat rest (acc * 10 + (c.toNat - '0'.toNat))

/-- `parse_int` (part_000 lines 427-433): `strtol(str, &endptr, 10)` followed
by the `*endptr != '\0'` check.  `strtol` skips leading whitespace, accepts
one optional sign, then a maximal digit run; with no digits it returns 0 and
leaves `endptr` at the start of the string, so the check fails unless the
whole string was empty. -/
def parse_int (s : List Char) : Int :=
  let t := s.dropWhile Char.isWhitespace
  let su : Int × List Char :=
    match t with
    | '-' :: r => (-1, r)
    | '+' :: r => (1, r)
    | r => (1, r)
  let digs := su.2.takeWhile Char.isDigit
  let rest := su.2.dropWhile Char.isDigit
  if digs = [] then (if s = [] then 0 else -1)
  else if rest = [] then su.1 * (digitsToNat digs 0 : Int)
  else -1

/-- The jid scan inside `parse_pid` (part_000 lines 401-408), kept verbatim:
the status guard is written `j->st == TERMINATED && j->st == UNINIT` in the
source, a conjunction no status satisfies. -/
def jidScan (jid : Int) : List Job → Int
  | [] => -1
  | j :: rest =>
    if j.st = Status.TERMINATED ∧ j.st = Status.UNINIT then -1
    else if j.jid = jid then j.pid
    else jidScan jid rest

/-- The bare-pid scan inside `parse_pid` (part_000 lines 415-421), with the
same always-false status guard as `jidScan`; on a pid match it returns the
parsed pid itself. -/
def pidScan (pid : Int) : List Job → Int
  | [] => -1
  | j :: rest =>
    if j.st = Status.TERMINATED ∧ j.st = Status.UNINIT then -1
    else if j.pid = pid then pid
    else pidScan pid rest

/-- `parse_pid` (part_000 lines 390-425): a `%`-prefixed token is parsed as a
jid (non-positive or malformed values are rejected before the table scan),
anything else as a bare pid. -/
def parse_pid (jobs : List Job) (s : List Char) : Int :=
  match s with
  | '%' :: rest =>
    let jid := parse_int rest
    if jid ≤ 0 then -1 else jidScan jid jobs
  | _ => pidScan (parse_int s) jobs

/-- The tokenizing loop of `parseline`, fuelled by the buffer length (each
iteration consumes at least the delimiter, so `buf.length` fuel always
suffices).  `strchr(buf, ' ')` fails once no space is left, and characters
after the last space are discarded (the caller guarantees the buffer ends in
a space). -/
def tokenizeFuel : Nat → List Char → List (List Char)
  | 0, _ => []
  | fuel + 1, buf =>
    let b := buf.dropWhile (· = ' ')
    if b.contains ' ' then
      (b.takeWhile (· ≠ ' ')) :: tokenizeFuel fuel ((b.dropWhile (· ≠ ' ')).tail)
    else []

/-- The token vector `parseline` builds for a line: the trailing character
(the newline stored by `fgets`) is overwritten with a space, then the buffer
is split on spaces. -/
def lineTokens (line : List Char) : List (List Char) :=
  let buf := line.dropLast ++ [' ']
  tokenizeFuel buf.length buf

/-- `parseline` (part_000 lines 335-362): returns the argument vector and
the background flag.  With no tokens it returns 1 (true).  Otherwise the
flag is `*argv[argc-1] == '&'` — the *first character* of the last token —
and when set, that whole token is removed from the vector. -/
def parseline (line : List Char) : List (List Char) × Bool :=
  let argv := lineTokens line
  match argv.getLast? with
  | none => (argv, true)
  | some tok => if tok.headD ' ' = '&' then (argv.dropLast, true) else (argv, false)

/-- One status report delivered by `waitpid`, as discriminated by the
`WIFEXITED` / `WIFSIGNALED` / `WIFSTOPPED` / `WIFCONTINUED` macros. -/
inductive WaitResult where
  | exited (code : Nat)
  | signaled (sig : Nat)
  | stopped (sig : Nat)
  | continued
deriving DecidableEq, Repr

/-- The classification in `reap_child` (part_000 lines 184-190):
`WIFEXITED(status) || WIFSIGNALED(status)` gives `TERMINATED`,
`WIFSTOPPED(status)` gives `STOPPED`, the remaining case (`WIFCONTINUED`)
gives `RUNNING`. -/
def classifyWait : WaitResult → Status
  | .exited _ => Status.TERMINATED
  | .signaled _ => Status.TERMINATED
  | .stopped _ => Status.STOPPED
  | .continued => Status.RUNNING

/-- `reap_child` (part_000 lines 170-199): the handler loops
`while (waitpid(-1, &status, WNOHANG | WUNTRACED | WCONTINUED) > 0)`,
classifying each reported transition and applying it with `setjobstat`.
The stream of `(pid, status)` pairs the non-blocking wait would deliver in
one invocation is passed in as `events`. -/
def reap_child (s : ShellState) (events : List (Int × WaitResult)) : ShellState :=
  events.foldl (fun t e => (setjobstat t e.1 (classifyWait e.2)).1) s

/-- User-visible output of the modelled operations. -/
inductive Msg where
  | terminatedBySignal (jid : Option Int) (pid : Int) (sig : Nat)
  | stoppedBySignal (jid : Int) (pid : Int) (sig : Nat)
  | noSuchProcess (tok : List Char)
  | jobList (entries : List (Int × Int × Status))
deriving DecidableEq, Repr

/-- `run_fg` (part_000 lines 435-480): sets `fg_pid = pid`, performs
`waitpid(pid, &status, WUNTRACED)` (its report is the parameter `w`), and
then branches on the status.  `WIFSIGNALED`: mark the job `TERMINATED` and
print a "terminated by signal" line (with the jid when `setjobstat` found
one) — `fg_pid` is *not* reset in this branch.  `WIFSTOPPED`: reset
`fg_pid`, register the pid as `STOPPED` via `addjob`, and print a "stopped
by signal" line with the returned jid; a negative jid makes the shell print
"Could not add new job" and `exit(0)` (and `addjob`'s undefined-behavior
path stays undefined), both modelled as `none`.  Any other status (normal
exit) falls through both branches, leaving `fg_pid` at `pid`. -/
def run_fg (s : ShellState) (pid : Int) (w : WaitResult) : Option (ShellState × List Msg) :=
  let s1 := { s with fg_pid := pid }
  match w with
  | .signaled sig =>
    let r := setjobstat s1 pid Status.TERMINATED
    if r.2 = -1 then some (r.1, [Msg.terminatedBySignal none pid sig])
    else some (r.1, [Msg.terminatedBySignal (some r.2) pid sig])
  | .stopped sig =>
    let s2 := { s1 with fg_pid := 0 }
    match addjob s2 pid Status.STOPPED with
    | none => none
    | some (s3, jid) =>
      if jid < 0 then none
      else some ({ s3 with fg_pid := 0 }, [Msg.stoppedBySignal jid pid sig])
  | _ => some (s1, [])

/-- The `jobs` builtin's listing (part_000 lines 372-379): every slot whose
status is neither `TERMINATED` nor `UNINIT`, printed as `[jid] pid STATUS`. -/
def jobsOutput (l : List Job) : List (Int × Int × Status) :=
  (l.filter fun j => !(j.st == Status.TERMINATED) && !(j.st == Status.UNINIT)).map
    fun j => (j.jid, j.pid, j.st)

/-- Where one call of `eval` ends up before any interaction with the
operating system: a synchronous return (with its output), a resolved
`fg`/`bg` target about to receive `SIGCONT`, a fork of an external command,
or `exit(0)` from `quit`. -/
inductive EvalStep where
  | done (s : ShellState) (out : List Msg)
  | contFg (s : ShellState) (stp_pid : Int)
  | contBg (s : ShellState) (stp_pid : Int)
  | launch (s : ShellState) (argv : List (List Char)) (bg : Bool)
  | quit
deriving DecidableEq, Repr

/-- `eval` (part_000 lines 248-333) up to the point where control leaves the
pure table logic: empty lines and a lone `&` are ignored; `fg`/`bg` return
silently with no second token, resolve the token through `parse_pid`
otherwise (a non-positive result prints "No such process"); `quit` and
`jobs` are handled by `builtin_command` (part_000 lines 367-383); anything
else is forked and run in fore- or background per the `parseline` flag. -/
def eval (s : ShellState) (line : List Char) : EvalStep :=
  let pr := parseline line
  match pr.1 with
  | [] => EvalStep.done s []
  | a0 :: rest =>
    if a0 = ['&'] then EvalStep.done s []
    else if a0 = ['f', 'g'] then
      match rest with
      | [] => EvalStep.done s []
      | idPart :: _ =>
        let stp := parse_pid s.jobs idPart
        if stp > 0 then EvalStep.contFg s stp else EvalStep.done s [Msg.noSuchProcess idPart]
    else if a0 = ['b', 'g'] then
      match rest with
      | [] => EvalStep.done s []
      | idPart :: _ =>
        let stp := parse_pid s.jobs idPart
        if stp > 0 then EvalStep.contBg s stp else EvalStep.done s [Msg.noSuchProcess idPart]
    else if a0 = ['q', 'u', 'i', 't'] then EvalStep.quit
    else if a0 = ['j', 'o', 'b', 's'] then EvalStep.done s [Msg.jobList (jobsOutput s.jobs)]
    else EvalStep.launch s (a0 :: rest) pr.2

/-- A job-table mutation performed from the main loop or a handler: a
`register` (`addjob`) or a `set_status` (`setjobstat`) call. -/
inductive Op where
  | add (pid : Int) (st : Status)
  | setst (pid : Int) (st : Status)
deriving DecidableEq, Repr

/-- Effect of one table operation; `none` propagates `addjob`'s
undefined-behavior case. -/
def step (s : ShellState) : Op → Option (ShellState × Int)
  | .add p st => addjob s p st
  | .setst p st => some (setjobstat s p st)

/-- Run a sequence of table operations. -/
def runOps : ShellState → List Op → Option ShellState
  | s, [] => some s
  | s, op :: ops =>
    match step s op with
    | none => none
    | some (s', _) => runOps s' ops

/-- Run a sequence of table operations, also collecting the jids returned by
the calls that allocated a fresh slot (recognized by `next_jid` having
moved). -/
def runJids : ShellState → List Op → Option (ShellState × List Int)
  | s, [] => some (s, [])
  | s, op :: ops =>
    match step s op with
    | none => none
    | some (s', jid) =>
      match runJids s' ops with
      | none => none
      | some (s'', js) =>
        if s'.next_jid = s.next_jid then some (s'', js) else some (s'', jid :: js)

/-! ### Basic facts about the table scans -/

theorem lt_length_of_getElem? {α : Type} {l : List α} {n : Nat} {a : α}
    (h : l[n]? = some a) : n < l.length := by
  by_contra hn
  rw [List.getElem?_eq_none (by omega)] at h
  cases h

theorem getD_of_getElem? {α : Type} [Inhabited α] {l : List α} {k : Nat} {a : α}
    (h : l[k]? = some a) : l.getD k default = a := by
  rw [List.getD_eq_getElem?_getD, h]
  rfl

theorem findPid_some {l : List Job} {p : Int} {k : Nat} (h : findPid l p = some k) :
    ∃ a : Job, l[k]? = some a ∧ a.pid = p ∧
      ∀ (i : Nat) (b : Job), i < k → l[i]? = some b → b.pid ≠ p := by
  induction l generalizing k with
  | nil => simp [findPid] at h
  | cons x xs ih =>
    by_cases hx : x.pid = p
    · simp only [findPid, if_pos hx] at h
      cases h
      exact ⟨x, List.getElem?_cons_zero, hx, fun i b hi => by omega⟩
    · simp only [findPid, if_neg hx, Option.map_eq_some'] at h
      obtain ⟨k', hk', rfl⟩ := h
      obtain ⟨a, ha, hap, hmin⟩ := ih hk'
      refine ⟨a, by simpa using ha, hap, fun i b hi hb => ?_⟩
      cases i with
      | zero =>
        rw [List.getElem?_cons_zero] at hb
        cases hb
        exact hx
      | succ n =>
        rw [List.getElem?_cons_succ] at hb
        exact hmin n b (by omega) hb

theorem findPid_none {l : List Job} {p : Int} (h : findPid l p = none) :
    ∀ (i : Nat) (b : Job), l[i]? = some b → b.pid ≠ p := by
  induction l with
  | nil => intro i b hb; simp at hb
  | cons x xs ih =>
    by_cases hx : x.pid = p
    · simp [findPid, hx] at h
    · simp only [findPid, if_neg hx, Option.map_eq_none'] at h
      intro i b hb
      cases i with
      | zero =>
        rw [List.getElem?_cons_zero] at hb
        cases hb
        exact hx
      | succ n =>
        rw [List.getElem?_cons_succ] at hb
        exact ih h n b hb

theorem lastFree_some {l : List Job} {m : Nat} (h : lastFree l = some m) :
    ∃ a : Job, l[m]? = some a ∧ isFree a := by
  induction l generalizing m with
  | nil => simp [lastFree] at h
  | cons x xs ih =>
    unfold lastFree at h
    cases hr : lastFree xs with
    | some k =>
      rw [hr] at h
      cases h
      obtain ⟨a, ha, hfa⟩ := ih hr
      exact ⟨a, by simpa using ha, hfa⟩
    | none =>
      rw [hr] at h
      by_cases hfx : isFree x
      · rw [if_pos hfx] at h
        cases h
        exact ⟨x, List.getElem?_cons_zero, hfx⟩
      · rw [if_neg hfx] at h
        cases h

/-! ### The duplicate-pid invariant

Among slots sharing the same pid, only the first one can ever have been
touched; every later one still carries its zero-initialized `UNINIT`
status.  This is what `addjob`'s first-match early return together with its
"only allocate when no slot matches" discipline preserves, and it forces
"at most one live slot per pid". -/

def TableInv (l : List Job) : Prop :=
  ∀ (i j : Nat) (a b : Job), i < j → l[i]? = some a → l[j]? = some b →
    a.pid = b.pid → b.st = Status.UNINIT

theorem tableInv_init : TableInv initState.jobs := by
  unfold TableInv
  intro i j a b _ _ hb _
  rw [initState] at hb
  simp only at hb
  rw [List.getElem?_replicate] at hb
  split at hb
  · cases hb
    rfl
  · cases hb

theorem tableInv_set_match {l : List Job} {k : Nat} {a : Job} {st : Status}
    (hInv : TableInv l) (ha : l[k]? = some a)
    (hfirst : ∀ (i : Nat) (b : Job), i < k → l[i]? = some b → b.pid ≠ a.pid) :
    TableInv (l.set k { a with st := st }) := by
  have hklen : k < l.length := lt_length_of_getElem? ha
  unfold TableInv
  intro i j c d hij hc hd hpid
  rw [List.getElem?_set] at hc hd
  by_cases hik : k = i <;> by_cases hjk : k = j
  · omega
  · rw [if_pos hik, if_pos (hik ▸ hklen)] at hc
    rw [if_neg hjk] at hd
    cases hc
    exact hInv i j a d hij (hik ▸ ha) hd hpid
  · rw [if_pos hjk, if_pos (hjk ▸ hklen)] at hd
    rw [if_neg hik] at hc
    cases hd
    exact absurd hpid (hfirst i c (by omega) hc)
  · rw [if_neg hik] at hc
    rw [if_neg hjk] at hd
    exact hInv i j c d hij hc hd hpid

theorem tableInv_set_fresh {l : List Job} {m : Nat} {p jid : Int} {st : Status}
    (hInv : TableInv l) (hnone : ∀ (i : Nat) (b : Job), l[i]? = some b → b.pid ≠ p) :
    TableInv (l.set m ⟨p, jid, st⟩) := by
  unfold TableInv
  intro i j c d hij hc hd hpid
  rw [List.getElem?_set] at hc hd
  by_cases him : m = i <;> by_cases hjm : m = j
  · omega
  · rw [if_pos him] at hc
    rw [if_neg hjm] at hd
    split at hc
    · cases hc
      exact absurd hpid.symm (hnone j d hd)
    · cases hc
  · rw [if_pos hjm] at hd
    rw [if_neg him] at hc
    split at hd
    · cases hd
      exact absurd hpid (hnone i c hc)
    · cases hd
  · rw [if_neg him] at hc
    rw [if_neg hjm] at hd
    exact hInv i j c d hij hc hd hpid

theorem addjob_inv {s : ShellState} {p : Int} {st : Status} {s' : ShellState} {jid : Int}
    (h : addjob s p st = some (s', jid)) (hInv : TableInv s.jobs) : TableInv s'.jobs := by
  unfold addjob at h
  cases hf : findPid s.jobs p with
  | some k =>
    rw [hf] at h
    cases h
    obtain ⟨a, ha, hap, hmin⟩ := findPid_some hf
    simp only
    rw [getD_of_getElem? ha]
    exact tableInv_set_match hInv ha (fun i b hi hb => hap ▸ hmin i b hi hb)
  | none =>
    rw [hf] at h
    cases hl : lastFree s.jobs with
    | some m =>
      rw [hl] at h
      cases h
      exact tableInv_set_fresh hInv (findPid_none hf)
    | none =>
      rw [hl] at h
      cases h

theorem setjobstat_inv {s : ShellState} {p : Int} {st : Status}
    (hInv : TableInv s.jobs) : TableInv (setjobstat s p st).1.jobs := by
  unfold setjobstat
  cases hf : findPid s.jobs p with
  | some k =>
    obtain ⟨a, ha, hap, hmin⟩ := findPid_some hf
    simp only
    rw [getD_of_getElem? ha]
    exact tableInv_set_match hInv ha (fun i b hi hb => hap ▸ hmin i b hi hb)
  | none => exact hInv

theorem runOps_inv {ops : List Op} {s s' : ShellState}
    (h : runOps s ops = some s') (hInv : TableInv s.jobs) : TableInv s'.jobs := by
  induction ops generalizing s with
  | nil =>
    simp only [runOps, Option.some.injEq] at h
    exact h ▸ hInv
  | cons op ops ih =>
    unfold runOps at h
    cases hstep : step s op with
    | none => rw [hstep] at h; cases h
    | some pr =>
      rw [hstep] at h
      obtain ⟨s1, jid⟩ := pr
      cases op with
      | add p st => exact ih h (addjob_inv hstep hInv)
      | setst p st =>
        simp only [step, Option.some.injEq] at hstep
        have hs1 : s1 = (setjobstat s p st).1 := (congrArg Prod.fst hstep).symm
        exact ih h (hs1 ▸ setjobstat_inv hInv)

/-! ### Monotonicity of `next_jid` -/

theorem step_next_jid {s : ShellState} {op : Op} {s' : ShellState} {jid : Int}
    (h : step s op = some (s', jid)) :
    s'.next_jid = s.next_jid ∨
      (s'.next_jid = s.next_jid + 1 ∧ jid = s.next_jid + 1) := by
  cases op with
  | setst p st =>
    simp only [step, Option.some.injEq] at h
    have : s'.next_jid = (setjobstat s p st).1.next_jid := by rw [h]
    rw [this]
    unfold setjobstat
    cases findPid s.jobs p <;> simp
  | add p st =>
    simp only [step] at h
    unfold addjob at h
    cases hf : findPid s.jobs p with
    | some k =>
      rw [hf] at h
      cases h
      exact Or.inl rfl
    | none =>
      rw [hf] at h
      cases hl : lastFree s.jobs with
      | some m =>
        rw [hl] at h
        cases h
        exact Or.inr ⟨rfl, rfl⟩
      | none =>
        rw [hl] at h
        cases h

theorem runJids_sorted {ops : List Op} {s s' : ShellState} {js : List Int}
    (h : runJids s ops = some (s', js)) :
    s.next_jid ≤ s'.next_jid ∧ (∀ x ∈ js, s.next_jid < x) ∧ js.Pairwise (· < ·) := by
  induction ops generalizing s js with
  | nil =>
    simp only [runJids, Option.some.injEq, Prod.mk.injEq] at h
    obtain ⟨rfl, rfl⟩ := h
    simp
  | cons op ops ih =>
    unfold runJids at h
    cases hstep : step s op with
    | none => rw [hstep] at h; cases h
    | some pr =>
      rw [hstep] at h
      obtain ⟨s1, jid⟩ := pr
      dsimp only at h
      cases hrest : runJids s1 ops with
      | none => rw [hrest] at h; cases h
      | some pr2 =>
        rw [hrest] at h
        obtain ⟨s2, js2⟩ := pr2
        dsimp only at h
        rcases step_next_jid hstep with heq | ⟨hinc, hjid⟩
        · rw [if_pos heq] at h
          cases h
          obtain ⟨hle, hall, hpw⟩ := ih hrest
          exact ⟨by omega, fun x hx => by have := hall x hx; omega, hpw⟩
        · rw [if_neg (by omega)] at h
          cases h
          obtain ⟨hle, hall, hpw⟩ := ih hrest
          refine ⟨by omega, ?_, ?_⟩
          · intro x hx
            rcases List.mem_cons.1 hx with rfl | hx'
            · omega
            · have := hall x hx'
              omega
          · refine List.Pairwise.cons (fun x hx => ?_) hpw
            have := hall x hx
            omega

/-! ### `setjobstat` only touches statuses -/

theorem setjobstat_preserves (s : ShellState) (p : Int) (st : Status) :
    (setjobstat s p st).1.next_jid = s.next_jid ∧
    (setjobstat s p st).1.fg_pid = s.fg_pid ∧
    (setjobstat s p st).1.jobs.length = s.jobs.length ∧
    ∀ i : Nat, ((setjobstat s p st).1.jobs[i]?).map Job.pid = (s.jobs[i]?).map Job.pid ∧
      ((setjobstat s p st).1.jobs[i]?).map Job.jid = (s.jobs[i]?).map Job.jid := by
  unfold setjobstat
  cases hf : findPid s.jobs p with
  | none => simp
  | some k =>
    obtain ⟨a, ha, hap, _⟩ := findPid_some hf
    have hklen : k < s.jobs.length := lt_length_of_getElem? ha
    dsimp only
    rw [getD_of_getElem? ha]
    refine ⟨rfl, rfl, List.length_set _ _ _, fun i => ?_⟩
    rw [List.getElem?_set]
    by_cases hik : k = i
    · subst hik
      rw [if_pos rfl, if_pos hklen, ha]
      exact ⟨rfl, rfl⟩
    · rw [if_neg hik]
      exact ⟨rfl, rfl⟩

theorem reap_preserves (events : List (Int × WaitResult)) (s : ShellState) :
    (reap_child s events).next_jid = s.next_jid ∧
    (reap_child s events).fg_pid = s.fg_pid ∧
    (reap_child s events).jobs.length = s.jobs.length ∧
    ∀ i : Nat, ((reap_child s events).jobs[i]?).map Job.pid = (s.jobs[i]?).map Job.pid ∧
      ((reap_child s events).jobs[i]?).map Job.jid = (s.jobs[i]?).map Job.jid := by
  induction events generalizing s with
  | nil => exact ⟨rfl, rfl, rfl, fun i => ⟨rfl, rfl⟩⟩
  | cons e es ih =>
    have hrw : reap_child s (e :: es) =
        reap_child (setjobstat s e.1 (classifyWait e.2)).1 es := rfl
    obtain ⟨h1, h2, h3, h4⟩ := setjobstat_preserves s e.1 (classifyWait e.2)
    obtain ⟨g1, g2, g3, g4⟩ := ih (setjobstat s e.1 (classifyWait e.2)).1
    rw [hrw]
    refine ⟨by rw [g1, h1], by rw [g2, h2], by rw [g3, h3], fun i => ?_⟩
    obtain ⟨g4a, g4b⟩ := g4 i
    obtain ⟨h4a, h4b⟩ := h4 i
    exact ⟨by rw [g4a, h4a], by rw [g4b, h4b]⟩

/-! ### Claims -/

/-- C1: the claim says resolving a token whose matching slot is `Uninit` or
`Terminated` always fails with "No such process" and never returns a stale
pid.  The code violates this: the status guard in `parse_pid` is written
with `&&` (`j->st == TERMINATED && j->st == UNINIT`), which no status
satisfies, so the guard is dead and a `Terminated` slot's pid is returned.
Concretely, after registering pid 42 and marking it `TERMINATED`, both the
bare token "42" and the jid token "%1" still resolve to the stale pid 42,
although every slot of the table is `Uninit` or `Terminated`. -/
def staleRun : Option ShellState :=
  runOps initState [Op.add 42 Status.RUNNING, Op.setst 42 Status.TERMINATED]

/-- C1 (see `staleRun`): the resolution of "42" and "%1" against a table
whose only populated slot is `TERMINATED` returns the stale pid 42 instead
of failing. -/
theorem c1_parse_pid_returns_stale_terminated_pid :
    staleRun.isSome = true ∧
    parse_pid (staleRun.getD initState).jobs ['4', '2'] = 42 ∧
    parse_pid (staleRun.getD initState).jobs ['%', '1'] = 42 ∧
    ∀ a ∈ (staleRun.getD initState).jobs,
      a.st = Status.UNINIT ∨ a.st = Status.TERMINATED := by
  decide

/-- The 100 registrations that fill every slot of the table with a live job. -/
def fullOps : List Op :=
  (List.range MAXJOBS).map (fun i => Op.add ((i : Int) + 1) Status.RUNNING)

/-- The state after the table has been filled with 100 live jobs. -/
def fullRun : Option ShellState := runOps initState fullOps

/-- C2: the claim says `addjob` returns the table-full error `-1` when no
`Uninit`/`Terminated` slot exists and that its free-slot selection never
reads an undefined value.  The code violates the second part: the local
`free_job` is declared without an initializer and is only assigned inside
the scan, so when the table is full of live jobs and the pid is new, the
final `if (free_job != NULL)` reads an indeterminate pointer (undefined
behavior — the embedding marks that path `none`).  After 100 registrations
the table holds 100 `RUNNING` jobs, pid 500 matches no slot, no slot is
free, and `addjob` reaches exactly that path. -/
theorem c2_addjob_full_table_reads_uninitialized_local :
    fullRun.isSome = true ∧
    addjob (fullRun.getD initState) 500 Status.RUNNING = none ∧
    findPid (fullRun.getD initState).jobs 500 = none ∧
    ∀ a ∈ (fullRun.getD initState).jobs, ¬isFree a := by
  decide

/-- C3: across any sequence of `addjob`/`setjobstat` calls from the initial
table, the jids handed out by the calls that allocate a fresh slot are
strictly increasing (hence never reused), regardless of slot recycling:
each fresh allocation returns `++next_jid`, and nothing ever decreases
`next_jid`. -/
theorem c3_register_jids_strictly_increasing (ops : List Op) (s : ShellState)
    (js : List Int) (h : runJids initState ops = some (s, js)) :
    js.Pairwise (· < ·) :=
  (runJids_sorted h).2.2

/-- Witness for C3: registering pids 5 and 7 issues the jid list `[1, 2]`,
which is strictly increasing. -/
theorem c3_register_jids_strictly_increasing_witness :
    List.Pairwise (· < ·) ([1, 2] : List Int) :=
  c3_register_jids_strictly_increasing
    [Op.add 5 Status.RUNNING, Op.add 7 Status.RUNNING]
    { next_jid := 2, fg_pid := 0,
      jobs := ((List.replicate MAXJOBS zeroJob).set 99 ⟨5, 1, Status.RUNNING⟩).set 98
        ⟨7, 2, Status.RUNNING⟩ }
    [1, 2] (by decide)

/-- C4: for every sequence of `addjob`/`setjobstat` calls starting from the
empty table, at most one slot holds a given pid in a live (neither `UNINIT`
nor `TERMINATED`) status: if two distinct slots carry the same pid and the
first is live, the second cannot be. -/
theorem c4_at_most_one_live_pid (ops : List Op) (s : ShellState) (i j : Nat)
    (a b : Job) (h : runOps initState ops = some s) (hij : i ≠ j)
    (ha : s.jobs[i]? = some a) (hb : s.jobs[j]? = some b) (hpid : a.pid = b.pid)
    (halive : a.st ≠ Status.UNINIT ∧ a.st ≠ Status.TERMINATED) :
    ¬(b.st ≠ Status.UNINIT ∧ b.st ≠ Status.TERMINATED) := by
  have hInv := runOps_inv h tableInv_init
  rcases Nat.lt_or_ge i j with hlt | hge
  · intro hliveb
    exact hliveb.1 (hInv i j a b hlt ha hb hpid)
  · have hlt : j < i := by omega
    exact absurd (hInv j i b a hlt hb ha hpid.symm) halive.1

/-- Witness for C4: after `addjob 0 RUNNING` slot 0 is live with pid 0 and
slot 1 still shares pid 0; the theorem then forces slot 1 to be dead. -/
theorem c4_at_most_one_live_pid_witness :
    ¬(zeroJob.st ≠ Status.UNINIT ∧ zeroJob.st ≠ Status.TERMINATED) :=
  c4_at_most_one_live_pid [Op.add 0 Status.RUNNING]
    { next_jid := 0, fg_pid := 0,
      jobs := (List.replicate MAXJOBS zeroJob).set 0 ⟨0, 0, Status.RUNNING⟩ }
    0 1 ⟨0, 0, Status.RUNNING⟩ zeroJob (by decide) (by decide) (by decide)
    (by decide) (by decide) (by decide)

/-- C5: `reap_child` drains every state change the non-blocking wait
reports in a single invocation, classifies each as `TERMINATED` on normal
exit or fatal signal, `STOPPED` on a stop signal and `RUNNING` on a
continue, and applies it through `setjobstat` only: it never changes
`next_jid`, `fg_pid`, the table size, or any slot's pid or jid. -/
theorem c5_reap_child_drains_all_via_set_status (s : ShellState)
    (events : List (Int × WaitResult)) :
    reap_child s events =
      events.foldl (fun t e => (setjobstat t e.1 (classifyWait e.2)).1) s ∧
    (∀ c : Nat, classifyWait (WaitResult.exited c) = Status.TERMINATED) ∧
    (∀ g : Nat, classifyWait (WaitResult.signaled g) = Status.TERMINATED) ∧
    (∀ g : Nat, classifyWait (WaitResult.stopped g) = Status.STOPPED) ∧
    classifyWait WaitResult.continued = Status.RUNNING ∧
    (reap_child s events).next_jid = s.next_jid ∧
    (reap_child s events).fg_pid = s.fg_pid ∧
    (reap_child s events).jobs.length = s.jobs.length ∧
    ∀ i : Nat,
      ((reap_child s events).jobs[i]?).map Job.pid = (s.jobs[i]?).map Job.pid ∧
      ((reap_child s events).jobs[i]?).map Job.jid = (s.jobs[i]?).map Job.jid := by
  obtain ⟨h1, h2, h3, h4⟩ := reap_preserves events s
  exact ⟨rfl, fun c => rfl, fun g => rfl, fun g => rfl, rfl, h1, h2, h3, h4⟩

/-- C6: the claim says `run_fg` clears the foreground designation in every
outcome.  The code violates this: `fg_pid = 0` appears only inside the
`WIFSTOPPED` branch, so after a normal exit and after a termination by
signal `fg_pid` still holds the dead child's pid (42 here), not 0. -/
theorem c6_run_fg_leaves_fg_pid_set_on_exit :
    run_fg initState 42 (WaitResult.exited 0) =
      some ({ next_jid := 0, fg_pid := 42, jobs := List.replicate MAXJOBS zeroJob }, []) ∧
    (run_fg initState 42 (WaitResult.signaled 9)).isSome = true ∧
    ((run_fg initState 42 (WaitResult.signaled 9)).getD (initState, [])).1.fg_pid = 42 ∧
    (42 : Int) ≠ 0 := by
  decide

/-- C7: when the foreground process (not previously in the table, which is
the spec's premise for this path) is stopped, `run_fg` adds exactly one new
table entry — the last free slot is overwritten with the pid, the fresh jid
`next_jid + 1` and status `STOPPED` — and prints a "stopped by signal"
notice bearing that same jid; when the foreground process exits normally
the table is untouched and nothing is printed. -/
theorem c7_run_fg_stop_registers_and_exit_is_silent (s : ShellState) (pid : Int)
    (sig : Nat) (m : Nat) (hnp : findPid s.jobs pid = none)
    (hfree : lastFree s.jobs = some m) (h0 : 0 ≤ s.next_jid) :
    run_fg s pid (WaitResult.stopped sig) =
      some ({ next_jid := s.next_jid + 1, fg_pid := 0,
              jobs := s.jobs.set m ⟨pid, s.next_jid + 1, Status.STOPPED⟩ },
            [Msg.stoppedBySignal (s.next_jid + 1) pid sig]) ∧
    (∃ a : Job, s.jobs[m]? = some a ∧ isFree a) ∧
    (∀ code : Nat, run_fg s pid (WaitResult.exited code) =
      some ({ s with fg_pid := pid }, [])) := by
  refine ⟨?_, lastFree_some hfree, fun code => rfl⟩
  unfold run_fg addjob
  dsimp only
  rw [hnp, hfree]
  dsimp only
  rw [if_neg (by omega)]

/-- Witness for C7: stopping foreground pid 42 on the initial table
registers it in slot 99 with jid 1 and reports that jid. -/
theorem c7_run_fg_stop_registers_witness :
    run_fg initState 42 (WaitResult.stopped 20) =
      some ({ next_jid := 1, fg_pid := 0,
              jobs := initState.jobs.set 99 ⟨42, 1, Status.STOPPED⟩ },
            [Msg.stoppedBySignal 1 42 20]) := by
  have h := (c7_run_fg_stop_registers_and_exit_is_silent initState 42 20 99
    (by decide) (by decide) (by decide)).1
  simpa using h

/-- C8 counterexample: the claim says the background flag is set if and
only if the final token is exactly the single character `&`.  On the line
"ls &&" the final token is `&&`, not `&`, yet `parseline` sets the flag
(and removes the whole token), because the code only tests the token's
first character. -/
theorem c8_parseline_counterexample :
    (parseline ['l', 's', ' ', '&', '&', '\n']).2 = true ∧
    (lineTokens ['l', 's', ' ', '&', '&', '\n']).getLast? = some ['&', '&'] ∧
    (['&', '&'] : List Char) ≠ ['&'] ∧
    (parseline ['l', 's', ' ', '&', '&', '\n']).1 = [['l', 's']] := by
  decide

/-- C8 (amended): `parseline` sets the background flag iff the line has no
tokens or the final token *begins with* `&`; when the flag is set the whole
final token is removed from the argument vector.  A lone `&` or an empty
line still reaches the evaluator as a no-op. -/
theorem c8_parseline_bg_iff_amp_first_char (line : List Char) (s : ShellState) :
    ((parseline line).2 = true ↔
      (lineTokens line = [] ∨ ((lineTokens line).getLast?.getD []).headD ' ' = '&')) ∧
    (parseline line).1 =
      (if (parseline line).2 then (lineTokens line).dropLast else lineTokens line) ∧
    eval s ['&', '\n'] = EvalStep.done s [] ∧
    eval s ['\n'] = EvalStep.done s [] := by
  refine ⟨?_, ?_, rfl, rfl⟩
  · unfold parseline
    rcases h : (lineTokens line).getLast? with _ | tok
    · have hnil : lineTokens line = [] := List.getLast?_eq_none_iff.1 h
      simp [hnil]
    · have hne : lineTokens line ≠ [] := by
        intro hc
        rw [hc] at h
        cases h
      cases tok with
      | nil => simp [h, hne]
      | cons c rest => by_cases hc : c = '&' <;> simp [h, hc, hne]
  · unfold parseline
    rcases h : (lineTokens line).getLast? with _ | tok
    · have hnil : lineTokens line = [] := List.getLast?_eq_none_iff.1 h
      simp [hnil]
    · cases tok with
      | nil => simp [h]
      | cons c rest => by_cases hc : c = '&' <;> simp [h, hc]

/-- C9: `fg` or `bg` with no argument token is a silent no-op: `eval`
returns at the `argv[1] == NULL` check with the state unchanged, printing
nothing and signalling nothing. -/
theorem c9_eval_fg_bg_no_argument_silent_noop (s : ShellState) :
    eval s ['f', 'g', '\n'] = EvalStep.done s [] ∧
    eval s ['b', 'g', '\n'] = EvalStep.done s [] :=
  ⟨rfl, rfl⟩

/-- C10: when some slot already stores the registered pid — the scan does
not care whether that slot is `Terminated` — `addjob` updates that first
matching slot's status in place and returns its existing jid, allocating no
fresh jid (`next_jid` is untouched in the result). -/
theorem c10_addjob_existing_pid_updates_in_place (s : ShellState) (pid : Int)
    (st : Status) (k : Nat) (a : Job) (hk : findPid s.jobs pid = some k)
    (ha : s.jobs[k]? = some a) :
    addjob s pid st =
      some ({ s with jobs := s.jobs.set k { a with st := st } }, a.jid) := by
  unfold addjob
  rw [hk]
  dsimp only
  rw [getD_of_getElem? ha]

/-- Witness for C10: a fresh process whose pid 42 equals a `TERMINATED`
job's recorded pid is handed that finished job's old jid 7 and the slot is
flipped back to `RUNNING` in place, with `next_jid` untouched. -/
theorem c10_addjob_existing_pid_witness :
    addjob
      { next_jid := 7, fg_pid := 0,
        jobs := (List.replicate MAXJOBS zeroJob).set 99 ⟨42, 7, Status.TERMINATED⟩ }
      42 Status.RUNNING =
    some ({ next_jid := 7, fg_pid := 0,
            jobs := ((List.replicate MAXJOBS zeroJob).set 99
              ⟨42, 7, Status.TERMINATED⟩).set 99 ⟨42, 7, Status.RUNNING⟩ }, 7) :=
  c10_addjob_existing_pid_updates_in_place
    { next_jid := 7, fg_pid := 0,
      jobs := (List.replicate MAXJOBS zeroJob).set 99 ⟨42, 7, Status.TERMINATED⟩ }
    42 Status.RUNNING 99 ⟨42, 7, Status.TERMINATED⟩ (by decide) (by decide)

end Ash
